import Mathlib

/-!
A shallow embedding of the `cog` CI task runner: the task lifecycle of
`cog/task.py` and the character/whitespace checker of `cog/tasks/chartest.py`
(a Python 2 code base).  Python strings are modelled as `String` / `List Char`,
Python integers as `Int` / `Nat`, `None` as `Option.none`, and raised
exceptions as `Except` errors.  External side effects (git invocations, the
HTML report write) are recorded as an `Effect` trace, and their outcomes are
supplied by a `GitEnv` environment record.
-/

namespace Cog

/-- Python whitespace, the character class stripped by `str.rstrip()` and by
`int()` around its argument: space, tab, newline, carriage return, vertical
tab and form feed. -/
def pyIsSpace (c : Char) : Bool :=
  c == ' ' || c == '\t' || c == '\n' || c == '\r' || c == '\x0b' || c == '\x0c'

/-- Python `l.rstrip()` on a list of characters. -/
def pyRstrip (l : List Char) : List Char :=
  (l.reverse.dropWhile pyIsSpace).reverse

/-- Python `s.startswith(pre)` on strings. -/
def pyStartsWith (s pre : String) : Bool := pre.toList.isPrefixOf s.toList

/-- Python `s.endswith(suf)` on strings. -/
def pyEndsWith (s suf : String) : Bool := suf.toList.isSuffixOf s.toList

/-- Decimal digits of `n`, most significant first (accumulator form; the first
argument is fuel, always called with fuel `> n`). -/
def natStrAux : Nat → Nat → List Char → List Char
  | 0, _, acc => acc
  | fuel + 1, n, acc =>
    if n < 10 then Nat.digitChar (n % 10) :: acc
    else natStrAux fuel (n / 10) (Nat.digitChar (n % 10) :: acc)

/-- Python `str(n)` for a nonnegative integer. -/
def natStr (n : Nat) : String := String.mk (natStrAux (n + 1) n [])

/-- Python `str(i)` for an integer. -/
def intStr (i : Int) : String :=
  if i < 0 then "-" ++ natStr i.natAbs else natStr i.natAbs

/-- Hexadecimal digits of `n`, most significant first, lowercase. -/
def hexStrAux : Nat → Nat → List Char → List Char
  | 0, _, acc => acc
  | fuel + 1, n, acc =>
    if n < 16 then Nat.digitChar (n % 16) :: acc
    else hexStrAux fuel (n / 16) (Nat.digitChar (n % 16) :: acc)

/-- Python `hex(n)` for a nonnegative integer: `"0x"` followed by lowercase
hexadecimal digits. -/
def pyHex (n : Nat) : String := "0x" ++ String.mk (hexStrAux (n + 1) n [])

/-- The characters of `l` strictly before the first occurrence of `c`, or all
of `l` when `c` does not occur: Python `l.split(c)[0]` for a one-character
separator. -/
def upToFirst (c : Char) : List Char → List Char
  | [] => []
  | x :: t => if x == c then [] else x :: upToFirst c t

/-- The characters of `l` strictly after the first occurrence of `c`, or
`none` when `c` does not occur.  `(afterFirst c l).map (upToFirst c)` is
Python `l.split(c)[1]` (with `none` modelling the raised `IndexError`). -/
def afterFirst (c : Char) : List Char → Option (List Char)
  | [] => none
  | x :: t => if x == c then some t else afterFirst c t

/-- The characters of `l` strictly before the first occurrence of the
two-character marker `@@`, or all of `l` when it does not occur: Python
`l.split("@@")[0]`. -/
def takeBeforeAtAt : List Char → List Char
  | [] => []
  | [x] => [x]
  | x :: y :: t => if x == '@' && y == '@' then [] else x :: takeBeforeAtAt (y :: t)

/-- Python substring test `sub in s`, on character lists. -/
def containsSeq (sub : List Char) : List Char → Bool
  | [] => sub.isEmpty
  | l@(_ :: t) => sub.isPrefixOf l || containsSeq sub t

/-- Python 2 `str.splitlines()`: split at `\n`, `\r` and `\r\n`; a trailing
terminator does not produce a final empty line.  First argument is the
remaining text, second the reversed current line. -/
def splitlinesAux : List Char → List Char → List (List Char)
  | [], [] => []
  | [], acc => [acc.reverse]
  | '\r' :: '\n' :: rest, acc => acc.reverse :: splitlinesAux rest []
  | '\n' :: rest, acc => acc.reverse :: splitlinesAux rest []
  | '\r' :: rest, acc => acc.reverse :: splitlinesAux rest []
  | c :: rest, acc => splitlinesAux rest (c :: acc)

/-- Python 2 `diff.splitlines()` on a string. -/
def pySplitlines (s : String) : List (List Char) := splitlinesAux s.toList []

/-- Numeric value of a list of decimal digit characters, most significant
first. -/
def digitsVal (l : List Char) : Nat := l.foldl (fun n c => 10 * n + (c.toNat - 48)) 0

/-- Python 2 `int(s)` on a string: strip whitespace, allow one optional sign,
then require at least one decimal digit and nothing else.  `none` models the
raised `ValueError`. -/
def pyInt? (l : List Char) : Option Int :=
  match ((l.dropWhile pyIsSpace).reverse.dropWhile pyIsSpace).reverse with
  | '-' :: ds => if ds ≠ [] ∧ ds.all Char.isDigit then some (-(digitsVal ds : Int)) else none
  | '+' :: ds => if ds ≠ [] ∧ ds.all Char.isDigit then some ((digitsVal ds : Int)) else none
  | ds => if ds ≠ [] ∧ ds.all Char.isDigit then some ((digitsVal ds : Int)) else none

/-- chartest.py: the characters that trigger a failure,
`map(chr, range(0x00, 0x09+1) + range(0x0b, 0x1f+1) + [0x7f])`. -/
def CRITICAL_CHARS : List Char :=
  (List.range' 0x00 (0x09 + 1 - 0x00) ++ List.range' 0x0b (0x1f + 1 - 0x0b) ++ [0x7f]).map
    Char.ofNat

/-- chartest.py: only files with these extensions are checked. -/
def CODE_EXTS : List String := [".py", ".cc", ".hh", ".h", ".c"]

/-- Python `line[:2] == "@@"`: the line is a hunk header. -/
def isHunkHeader : List Char → Bool
  | x :: y :: _ => x == '@' && y == '@'
  | _ => false

/-- Whether the remainder of a line that begins with `+` starts with two more
`+` characters, i.e. the whole line satisfies `line[:3] == "+++"`. -/
def startsPlusPlus : List Char → Bool
  | x :: y :: _ => x == '+' && y == '+'
  | _ => false

/-- Python `len(line) == 0 or line[0] != "+" or line[:3] == "+++"`: the lines
`check_file` skips (everything that is not an addition line). -/
def skipLine : List Char → Bool
  | [] => true
  | c :: rest => c != '+' || startsPlusPlus rest

/-- chartest.py `check_file`, hunk-header branch: take the text between the
first `+` of the line and the following `@@`; the part of it before the first
comma if a comma is present, otherwise all of it; interpret that as an
integer.  `-999` models the `except` fallback (either the `IndexError` when the
line has no `+`, or the `ValueError` from `int`). -/
def parseHunkHeader (line : List Char) : Int :=
  match afterFirst '+' line with
  | none => -999
  | some rest =>
    let lineContext := takeBeforeAtAt (upToFirst '+' rest)
    let numStr := if lineContext.contains ',' then upToFirst ',' lineContext else lineContext
    match pyInt? numStr with
    | some n => n
    | none => -999

/-- The rule a policy violation is reported under, with its payload. -/
inductive Rule where
  | trailingWhitespace (count : Nat)
  | badChar (c : Char) (count : Nat)
deriving DecidableEq

/-- One per-line policy violation produced by `check_file`, in structured form
(the stored message string is produced by `formatViolation`). -/
structure Violation where
  rule : Rule
  lineNumber : Int
  line : List Char
deriving DecidableEq

/-- Whether a violation is a forbidden-character one. -/
def Violation.isBadChar (v : Violation) : Bool :=
  match v.rule with
  | .badChar _ _ => true
  | _ => false

/-- chartest.py `check_file`, per-line checks on one addition line: the
trailing-whitespace count via `rstrip`, then one violation per critical
character occurring on the line, in `CRITICAL_CHARS` order. -/
def checkLine (lineNumber : Int) (line : List Char) : List Violation :=
  let trailing := line.length - (pyRstrip line).length
  (if trailing ≠ 0 then [⟨.trailingWhitespace trailing, lineNumber, line⟩] else []) ++
    CRITICAL_CHARS.filterMap fun y =>
      if line.count y ≠ 0 then some ⟨.badChar y (line.count y), lineNumber, line⟩ else none

/-- The value `line_number` holds while the current line is processed: reset by
a hunk header, otherwise the incoming counter. -/
def assignedNumber (n : Int) (line : List Char) : Int :=
  if isHunkHeader line then parseHunkHeader line else n

/-- The value `line_number` holds after the current line: skipped lines leave
it unchanged (apart from a hunk-header reset), addition lines increment it. -/
def nextCounter (n : Int) (line : List Char) : Int :=
  if skipLine line then assignedNumber n line else assignedNumber n line + 1

/-- chartest.py `check_file`, main loop over the diff lines, collecting the
structured per-line violations. -/
def checkLines : Int → List (List Char) → List Violation
  | _, [] => []
  | n, line :: rest =>
    (if skipLine line then [] else checkLine (assignedNumber n line) line) ++
      checkLines (nextCounter n line) rest

/-- The sequence of line numbers assigned to the addition lines processed by
the `check_file` loop, in order. -/
def lineNumbers : Int → List (List Char) → List Int
  | _, [] => []
  | n, line :: rest =>
    (if skipLine line then [] else [assignedNumber n line]) ++ lineNumbers (nextCounter n line) rest

/-- The counter value after the `check_file` loop has consumed `ls`. -/
def counterAfter (n : Int) (ls : List (List Char)) : Int := ls.foldl nextCounter n

/-- chartest.py: `"chars" if trailing_white_space > 1 else "char"`. -/
def pluralChars (n : Nat) : String := if n > 1 then "chars" else "char"

/-- chartest.py `check_file`: the message string appended to the error list for
one structured violation, character for character as in the source. -/
def formatViolation (v : Violation) : String :=
  match v.rule with
  | .trailingWhitespace k =>
      natStr k ++ " trailing whitespace " ++ pluralChars k ++ " on line " ++
        intStr v.lineNumber ++ " :  ' " ++ String.mk v.line ++ " '"
  | .badChar c k =>
      natStr k ++ " copies of char " ++ pyHex c.toNat ++ " on line " ++
        intStr v.lineNumber ++ " : ' " ++ String.mk v.line ++ " '" ++
        (if c.toNat == 0x09 then " => new TABs" else "")

/-- chartest.py: the literal `"\ No newline at end of file"` git marker. -/
def noNewlineMarker : List Char := "\\ No newline at end of file".toList

/-- chartest.py `check_file`: the error list for one file's diff text — the
EOF-newline warning first when the marker occurs anywhere in the diff, then
the formatted per-line violations from the loop (counter seeded at `-999`). -/
def check_file (diff : String) : List String :=
  (if containsSeq noNewlineMarker diff.toList then ["No EOF newline"] else []) ++
    (checkLines (-999) (pySplitlines diff)).map formatViolation

/-- chartest.py `check_changed_files`: filter the changed files down to code
extensions, run `check_file` on each file's diff, aggregate success.  The two
git queries (`get_changed_files`, `get_diff`) are externals; their outputs are
the `changedFiles` list and the `diffOf` oracle. -/
def check_changed_files (changedFiles : List String) (diffOf : String → String) :
    Bool × List (String × List String) :=
  let changedCodeFiles := changedFiles.filter fun f => CODE_EXTS.any fun e => pyEndsWith f e
  changedCodeFiles.foldl
    (fun acc f =>
      let fileErrors := check_file (diffOf f)
      (if fileErrors ≠ [] then false else acc.1, acc.2 ++ [(f, fileErrors)]))
    (true, [])

/-- A raised Python exception, carrying the text `str(e)` would produce. -/
inductive PyError where
  | nameError (msg : String)
  | attributeError (msg : String)
deriving DecidableEq

/-- Python `str(e)` for a raised exception. -/
def PyError.str : PyError → String
  | .nameError m => m
  | .attributeError m => m

/-- One attachment dictionary as built by `CharCheck.run`:
`{'filename': ..., 'contents': ..., 'link_name': ...}`. -/
structure Attachment where
  filename : String
  contents : String
  link_name : Option String
deriving DecidableEq

/-- A task-result dictionary.  Every key that some code path may place in the
dictionary is an optional field; an absent key is `none`. -/
structure RunResult where
  success : Bool
  reason : Option String := none
  code : Option String := none
  errors : Option (List (String × List String)) := none
  attachments : Option (List Attachment) := none
  attach_links : Option (List (String × String)) := none
deriving DecidableEq

/-- Python truthiness of an optional string: `None` and `""` are falsy. -/
def pyTruthy : Option String → Bool
  | none => false
  | some s => s != ""

/-- Python 2 `os.path.join(a, b)` for two strings (posixpath). -/
def pyPathJoin (a b : String) : String :=
  if pyStartsWith b "/" then b
  else if a == "" || pyEndsWith a "/" then a ++ b
  else a ++ "/" ++ b

/-- One external side effect performed by `CharCheck.run`, in order: the
`git_clone` call, the `git_fetch` call, the `check_changed_files` git queries,
and the HTML report write. -/
inductive Effect where
  | clone (url sha target work_dir : Option String)
  | fetch (url : String) (repo_dir : Option String)
  | checkChanged (sha : String) (repo_dir : Option String)
  | writeHtml (path : String)
deriving DecidableEq

/-- Outcomes of the external git steps: what `git_clone` returns (`none` when
the target already existed, otherwise the shell's exit code) or raises, what
`git_fetch` returns or raises, and the data the `check_changed_files` git
queries produce. -/
structure GitEnv where
  cloneOutcome : Except PyError (Option Int)
  fetchOutcome : Except PyError (Option Int)
  changedFiles : List String
  diffOf : String → String

/-- Python `str(code)` where `code` is an optional integer (`str(None)` is
`"None"`). -/
def pyStrOptInt : Option Int → String
  | none => "None"
  | some i => intStr i

/-- The `kwargs` dictionary of a job document, restricted to the keys
`CharCheck.run` reads; an absent key reads as `None`. -/
structure Kwargs where
  sha : Option String := none
  git_url : Option String := none
  base_repo_ref : Option String := none
  base_repo_url : Option String := none
deriving DecidableEq

/-- chartest.py `CharCheck.run`: validate the inputs, clone the base, fetch the
fork, check the changed files, write the HTML report.  The pair returned is
the trace of external effects and either the dictionary `run` returns or the
exception it raises.  The final `results` line of the source reads the name
`success`, which is bound nowhere (the check's result was assigned to the
misspelt `sucsess`), so every execution that reaches it raises a `NameError`
instead of returning the results dictionary. -/
def CharCheck.run (kw : Kwargs) (work_dir : Option String) (env : GitEnv) :
    List Effect × Except PyError RunResult :=
  match kw.sha with
  | none => ([], .ok { success := false, reason := some "missing revision id" })
  | some sha =>
    match kw.git_url with
    | none => ([], .ok { success := false, reason := some "missing git url" })
    | some git_url =>
      if (pyTruthy kw.base_repo_url && kw.base_repo_ref == none) ||
          (pyTruthy kw.base_repo_ref && kw.base_repo_url == none) then
        ([], .ok { success := false, reason := some "incomplete base specification for merge" })
      else
        let cloneEff := Effect.clone kw.base_repo_url kw.base_repo_ref kw.base_repo_ref work_dir
        match env.cloneOutcome with
        | .error e => ([cloneEff], .error e)
        | .ok code =>
          if code == none || (code != some 0 && code != some 1) then
            ([cloneEff],
              .ok { success := false, reason := some "git clone failed",
                    code := some (pyStrOptInt code) })
          else
            let repoDirE : Except PyError (Option String) :=
              if pyTruthy work_dir then
                match kw.base_repo_ref with
                | none =>
                    .error (.attributeError
                      "'NoneType' object has no attribute 'startswith'")
                | some r => .ok (some (pyPathJoin (work_dir.getD "") r))
              else .ok kw.base_repo_ref
            match repoDirE with
            | .error e => ([cloneEff], .error e)
            | .ok repo_dir =>
              let fetchEff := Effect.fetch git_url repo_dir
              match env.fetchOutcome with
              | .error e => ([cloneEff, fetchEff], .error e)
              | .ok fcode =>
                if fcode == none || (fcode != some 0 && fcode != some 1) then
                  ([cloneEff, fetchEff],
                    .ok { success := false, reason := some "git clone failed",
                          code := some (pyStrOptInt fcode) })
                else
                  let _sucsessErrors := check_changed_files env.changedFiles env.diffOf
                  ([cloneEff, fetchEff, Effect.checkChanged sha repo_dir,
                      Effect.writeHtml "char_test.html"],
                    .error (.nameError "global name 'success' is not defined"))

/-- A job document, restricted to the fields the lifecycle writes. -/
structure JobDoc where
  started : Option Nat := none
  node : Option String := none
  results : Option RunResult := none
  completed : Option Nat := none
deriving DecidableEq

/-- task.py `Task.start`: record the start timestamp and the executing node. -/
def Task.start (doc : JobDoc) (t : Nat) (node : String) : JobDoc :=
  { doc with started := some t, node := some node }

/-- task.py `Task.finish`, net effect on the stored results dictionary: when
attachments are present they are uploaded through the store's attachment
mechanism, every `link_name`-bearing attachment is appended to the
`attach_links` list, and the raw `attachments` key is deleted from the stored
results (the deletion mutates the same dictionary object the document holds). -/
def finishResults (r : RunResult) : RunResult :=
  match r.attachments with
  | none => r
  | some atts =>
      { r with
        attachments := none,
        attach_links := some ((r.attach_links.getD []) ++
          atts.filterMap fun a => a.link_name.map fun n => (a.filename, n)) }

/-- task.py `Task.finish`: store the results payload and the completion
timestamp on the job document. -/
def Task.finish (doc : JobDoc) (r : RunResult) (t : Nat) : JobDoc :=
  { doc with results := some (finishResults r), completed := some t }

/-- task.py `Task.__call__`: start, run the task body, and finish.  When the
body raises, the exception is caught and a failure result embedding `str(e)`
is synthesized; `finish` runs in either case and the call itself never
raises. -/
def Task.call (doc : JobDoc) (runOutcome : Except PyError RunResult)
    (tStart tFinish : Nat) (node : String) : JobDoc :=
  let d := Task.start doc tStart node
  let results : RunResult :=
    match runOutcome with
    | .ok r => r
    | .error e => { success := false, reason := some ("Unhandled exception in task: " ++ e.str) }
  Task.finish d results tFinish

/-- One hunk of a unified diff: its header line, the new-file start line the
header declares, and its body lines. -/
structure Hunk where
  header : List Char
  newStart : Nat
  body : List (List Char)

/-- The number of addition lines (lines the checker does not skip) in `ls`. -/
def addCountL (ls : List (List Char)) : Nat := (ls.filter fun l => !skipLine l).length

/-- The number of addition lines in a hunk's body. -/
def Hunk.addCount (h : Hunk) : Nat := addCountL h.body

/-- A well-formed hunk: its header line starts with the hunk marker and its
second range specifier parses to `newStart`, and no body line looks like a
hunk header. -/
def hunkWF (h : Hunk) : Bool :=
  isHunkHeader h.header && (parseHunkHeader h.header == (h.newStart : Int)) &&
    h.body.all fun l => !isHunkHeader l

/-- Hunks ordered as in a well-formed unified diff: each hunk's new-file start
is at least the previous hunk's start plus its addition count. -/
def hunksOrdered : Nat → List Hunk → Bool
  | _, [] => true
  | lb, h :: t => decide (lb ≤ h.newStart) && hunksOrdered (h.newStart + h.addCount) t

/-- The line sequence of a list of hunks: each header followed by its body. -/
def renderHunks (hs : List Hunk) : List (List Char) :=
  (hs.map fun h => h.header :: h.body).flatten

/-- The line sequence of a whole file diff: preamble (the `diff --git`,
`index`, `---`, `+++` lines) followed by the hunks. -/
def renderDiff (preamble : List (List Char)) (hs : List Hunk) : List (List Char) :=
  preamble ++ renderHunks hs

/-- A well-formed file diff: the preamble lines are neither hunk headers nor
addition lines, every hunk is well formed, and the hunks are ordered. -/
def diffWF (preamble : List (List Char)) (hs : List Hunk) : Bool :=
  (preamble.all fun l => !isHunkHeader l && skipLine l) && hs.all hunkWF &&
    hunksOrdered 0 hs

/-- C8: for every job document whose kwargs lack the `sha` key, `CharCheck.run`
returns `{'success': False, 'reason': 'missing revision id'}` before any clone
or fetch is attempted — the external effect trace is empty. -/
theorem run_missing_sha_short_circuits (gu ref burl : Option String)
    (wd : Option String) (env : GitEnv) :
    CharCheck.run { sha := none, git_url := gu, base_repo_ref := ref, base_repo_url := burl }
      wd env =
      ([], .ok { success := false, reason := some "missing revision id" }) := rfl

/-- C2: for every job whose task body raises an uncaught fault, `Task.__call__`
catches the fault (`Task.call` is total), synthesizes a result with
`success = false` and a reason embedding `str(e)`, and still runs `finish`, so
the job document receives that results payload and a `completed` timestamp. -/
theorem call_fault_reaches_terminal_state (doc : JobDoc) (e : PyError)
    (tStart tFinish : Nat) (node : String) :
    (Task.call doc (.error e) tStart tFinish node).results =
        some { success := false,
               reason := some ("Unhandled exception in task: " ++ e.str) } ∧
    (Task.call doc (.error e) tStart tFinish node).completed = some tFinish := by
  exact ⟨rfl, rfl⟩

/-- C1 (code bug): a job that passes input validation, whose clone and fetch
both exit 0 and whose checked file is clean, still does not obtain
`{'success': True, ...}` from `CharCheck.run`: the final `results` dictionary
of the source reads the unbound name `success` (the check's outcome was
assigned to the misspelt `sucsess`), so `run` raises a `NameError` after the
clone, fetch, check and report-write steps instead of returning the
violation mapping. -/
theorem run_happy_path_raises_name_error :
    CharCheck.run
      { sha := some "abc123", git_url := some "git://fork",
        base_repo_ref := some "master", base_repo_url := some "git://base" }
      (some "/work")
      { cloneOutcome := .ok (some 0), fetchOutcome := .ok (some 0),
        changedFiles := ["src/a.cc"], diffOf := fun _ => "@@ -1 +1 @@\n+clean line" } =
      ([Effect.clone (some "git://base") (some "master") (some "master") (some "/work"),
        Effect.fetch "git://fork" (some "/work/master"),
        Effect.checkChanged "abc123" (some "/work/master"),
        Effect.writeHtml "char_test.html"],
        .error (.nameError "global name 'success' is not defined")) := rfl

/-- C9: a clone step whose return code is neither 0 nor 1 short-circuits
`CharCheck.run` with `{'success': False, 'reason': 'git clone failed',
'code': str(code)}`, the effect trace being the clone alone (no fetch, no
check); return codes 0 and 1 both let the task proceed to the fetch step. -/
theorem run_clone_code_contract (sha gu ref burl : String) (wd : Option String)
    (fo : Except PyError (Option Int)) (cf : List String) (df : String → String) :
    (∀ c : Int, c ≠ 0 → c ≠ 1 →
      CharCheck.run
        { sha := some sha, git_url := some gu, base_repo_ref := some ref,
          base_repo_url := some burl }
        wd
        { cloneOutcome := .ok (some c), fetchOutcome := fo, changedFiles := cf,
          diffOf := df } =
        ([Effect.clone (some burl) (some ref) (some ref) wd],
          .ok { success := false, reason := some "git clone failed",
                code := some (intStr c) })) ∧
    (∀ c : Int, c = 0 ∨ c = 1 →
      2 ≤ (CharCheck.run
        { sha := some sha, git_url := some gu, base_repo_ref := some ref,
          base_repo_url := some burl }
        wd
        { cloneOutcome := .ok (some c), fetchOutcome := fo, changedFiles := cf,
          diffOf := df }).1.length) := by
  constructor
  · intro c hc0 hc1
    simp [CharCheck.run, pyStrOptInt, hc0, hc1]
  · rintro c (rfl | rfl) <;>
      cases hwt : pyTruthy wd <;> cases fo <;>
        simp [CharCheck.run, hwt] <;> split <;> simp

/-- Witness for C9 at the concrete clone exit code 2 (short-circuit) and exit
code 0 (the task proceeds to the fetch step). -/
theorem run_clone_code_contract_witness :
    CharCheck.run
      { sha := some "abc", git_url := some "u", base_repo_ref := some "r",
        base_repo_url := some "B" }
      none
      { cloneOutcome := .ok (some 2), fetchOutcome := .ok (some 0), changedFiles := [],
        diffOf := fun _ => "" } =
      ([Effect.clone (some "B") (some "r") (some "r") none],
        .ok { success := false, reason := some "git clone failed", code := some (intStr 2) }) ∧
    2 ≤ (CharCheck.run
      { sha := some "abc", git_url := some "u", base_repo_ref := some "r",
        base_repo_url := some "B" }
      none
      { cloneOutcome := .ok (some 0), fetchOutcome := .ok (some 0), changedFiles := [],
        diffOf := fun _ => "" }).1.length :=
  ⟨(run_clone_code_contract "abc" "u" "r" "B" none (.ok (some 0)) [] (fun _ => "")).1 2
      (by decide) (by decide),
    (run_clone_code_contract "abc" "u" "r" "B" none (.ok (some 0)) [] (fun _ => "")).2 0
      (Or.inl rfl)⟩

/-- C10: kwargs with `sha` and `git_url` but neither `base_repo_url` nor
`base_repo_ref` pass input validation — `CharCheck.run` does not return the
`'incomplete base specification for merge'` failure — and the clone step is
attempted with `None` for the URL, the revision and the target directory. -/
theorem run_no_base_spec_attempts_clone (sha gu : String) (wd : Option String) (env : GitEnv) :
    (CharCheck.run { sha := some sha, git_url := some gu } wd env).1.head? =
        some (Effect.clone none none none wd) ∧
    (CharCheck.run { sha := some sha, git_url := some gu } wd env).2 ≠
      .ok { success := false, reason := some "incomplete base specification for merge" } := by
  obtain ⟨co, fo, cf, df⟩ := env
  have hnone : pyTruthy none = false := rfl
  cases co with
  | error e => simp [CharCheck.run, hnone]
  | ok code =>
    by_cases hcode : code = none ∨ ¬code = some 0 ∧ ¬code = some 1
    · simp [CharCheck.run, hcode, hnone]
    · cases hwt : pyTruthy wd with
      | true => simp [CharCheck.run, hcode, hwt, hnone]
      | false =>
        cases fo with
        | error e => simp [CharCheck.run, hcode, hwt, hnone]
        | ok fc =>
          simp [CharCheck.run, hcode, hwt, hnone]
          split <;> simp

theorem natStrAux_head (fuel n : Nat) (acc : List Char) :
    ∃ d t, d ≤ 9 ∧ natStrAux (fuel + 1) n acc = Nat.digitChar d :: t := by
  induction fuel generalizing n acc with
  | zero =>
    simp only [natStrAux]
    split
    · exact ⟨n % 10, acc, Nat.le_of_lt_succ (Nat.mod_lt n (by omega)), rfl⟩
    · exact ⟨n % 10, acc, Nat.le_of_lt_succ (Nat.mod_lt n (by omega)), rfl⟩
  | succ f ih =>
    simp only [natStrAux]
    split
    · exact ⟨n % 10, acc, Nat.le_of_lt_succ (Nat.mod_lt n (by omega)), rfl⟩
    · exact ih (n / 10) (Nat.digitChar (n % 10) :: acc)

theorem digitChar_ne_N (d : Nat) (hd : d ≤ 9) : Nat.digitChar d ≠ 'N' := by
  interval_cases d <;> decide

theorem natStr_append_ne_marker (k : Nat) (s : String) :
    natStr k ++ s ≠ "No EOF newline" := by
  obtain ⟨d, t, hd, he⟩ := natStrAux_head k k []
  intro hcontra
  have hdata : (natStr k ++ s).data = "No EOF newline".data := congrArg String.data hcontra
  rw [String.data_append] at hdata
  have : (natStr k).data = Nat.digitChar d :: t := by
    simp only [natStr, he]
  rw [this] at hdata
  have hhead : Nat.digitChar d = 'N' := by
    simpa using congrArg List.head? hdata
  exact digitChar_ne_N d hd hhead

theorem formatViolation_ne_marker (v : Violation) :
    formatViolation v ≠ "No EOF newline" := by
  obtain ⟨rule, ln, line⟩ := v
  cases rule with
  | trailingWhitespace k =>
    simpa only [formatViolation, String.append_assoc] using
      natStr_append_ne_marker k _
  | badChar c k =>
    simpa only [formatViolation, String.append_assoc] using
      natStr_append_ne_marker k _

/-- C7: `check_file` emits the `"No EOF newline"` violation exactly once when
the literal `"\ No newline at end of file"` marker occurs anywhere in the diff
text, and never otherwise — independently of how many addition lines the diff
contains or what per-line violations they produce. -/
theorem check_file_eof_marker_count (diff : String) :
    (check_file diff).count "No EOF newline" =
      (if containsSeq noNewlineMarker diff.toList then 1 else 0) := by
  unfold check_file
  rw [List.count_append]
  have h2 : ((checkLines (-999) (pySplitlines diff)).map formatViolation).count
      "No EOF newline" = 0 := by
    rw [List.count_eq_zero]
    intro hmem
    obtain ⟨v, _, hv⟩ := List.mem_map.mp hmem
    exact formatViolation_ne_marker v hv
  rw [h2]
  split <;> simp

theorem checkLine_fields (m : Int) (l : List Char) (v : Violation)
    (hv : v ∈ checkLine m l) : v.lineNumber = m ∧ v.line = l := by
  unfold checkLine at hv
  rcases List.mem_append.mp hv with h | h
  · split at h
    · rw [List.mem_singleton.mp h]
      exact ⟨rfl, rfl⟩
    · simp at h
  · obtain ⟨y, _, hfy⟩ := List.mem_filterMap.mp h
    split at hfy
    · rw [← Option.some.inj hfy]
      exact ⟨rfl, rfl⟩
    · simp at hfy

theorem skipLine_false_shape (l : List Char) (h : skipLine l = false) :
    ∃ rest, l = '+' :: rest := by
  cases l with
  | nil => simp [skipLine] at h
  | cons c rest =>
    simp only [skipLine, Bool.or_eq_false_iff, bne_eq_false_iff_eq] at h
    exact ⟨rest, by rw [h.1]⟩

theorem isHunkHeader_false_of_skipLine_false (l : List Char) (h : skipLine l = false) :
    isHunkHeader l = false := by
  obtain ⟨rest, rfl⟩ := skipLine_false_shape l h
  cases rest <;> simp [isHunkHeader]

theorem skipLine_of_isHunkHeader (l : List Char) (h : isHunkHeader l = true) :
    skipLine l = true := by
  cases l with
  | nil => simp [isHunkHeader] at h
  | cons x rest =>
    cases rest with
    | nil => simp [isHunkHeader] at h
    | cons y t =>
      simp only [isHunkHeader, Bool.and_eq_true, beq_iff_eq] at h
      simp [skipLine, h.1]

theorem checkLines_line_not_skipped (n : Int) (lines : List (List Char)) (v : Violation)
    (hv : v ∈ checkLines n lines) : skipLine v.line = false := by
  induction lines generalizing n with
  | nil => simp [checkLines] at hv
  | cons l rest ih =>
    rw [checkLines] at hv
    rcases List.mem_append.mp hv with h | h
    · split at h
      · simp at h
      · next hskip =>
          rw [(checkLine_fields _ _ _ h).2]
          simp only [Bool.not_eq_true] at hskip
          exact hskip
    · exact ih _ h

/-- C5: per-line policy violations are produced only for addition lines.
Every violation `checkLines` emits comes from a line that is not skipped;
a skipped line contributes nothing to the output; and a line is skipped
exactly when it is empty or does not begin with `+` or begins with `+++`. -/
theorem per_line_violations_only_for_additions :
    (∀ (n : Int) (lines : List (List Char)),
      ((checkLines n lines).all fun v => !skipLine v.line) = true) ∧
    (∀ (n : Int) (l : List Char) (rest : List (List Char)), skipLine l = true →
      checkLines n (l :: rest) = checkLines (nextCounter n l) rest) ∧
    (∀ l : List Char, skipLine l = true ↔
      (l.head? ≠ some '+' ∨ l.take 3 = ['+', '+', '+'])) := by
  refine ⟨?_, ?_, ?_⟩
  · intro n lines
    rw [List.all_eq_true]
    intro v hv
    simp [checkLines_line_not_skipped n lines v hv]
  · intro n l rest h
    rw [checkLines, h]
    simp
  · intro l
    cases l with
    | nil => simp [skipLine]
    | cons c rest =>
      cases rest with
      | nil => simp [skipLine, startsPlusPlus, List.take]
      | cons y t =>
        cases t with
        | nil =>
          simp [skipLine, startsPlusPlus, List.take]
        | cons z t2 =>
          simp only [skipLine, startsPlusPlus, List.take, Bool.or_eq_true, bne_iff_ne,
            Bool.and_eq_true, beq_iff_eq, List.head?, ne_eq, Option.some.injEq,
            List.cons.injEq, and_true]
          tauto

/-- Witness for C5 at a concrete skipped line: a deletion line contributes no
violation and leaves the counter where `nextCounter` puts it. -/
theorem per_line_violations_only_for_additions_witness :
    checkLines 7 [['-', 'x'], ['+', 'a']] = checkLines (nextCounter 7 ['-', 'x']) [['+', 'a']] ∧
    skipLine ['-', 'x'] = true :=
  ⟨per_line_violations_only_for_additions.2.1 7 ['-', 'x'] [['+', 'a']] (by decide), by decide⟩

theorem filterMap_eq_singleton {α β : Type} [DecidableEq α]
    (L : List α) (f : α → Option β) (t : α) (v : β)
    (hft : f t = some v) (hother : ∀ c ∈ L, c ≠ t → f c = none)
    (hcount : L.count t = 1) :
    L.filterMap f = [v] := by
  induction L with
  | nil => simp at hcount
  | cons a L ih =>
    by_cases ha : a = t
    · subst ha
      rw [List.count_cons_self] at hcount
      have hL0 : L.count a = 0 := by omega
      have hnone : ∀ c ∈ L, f c = none := by
        intro c hc
        rcases eq_or_ne c a with rfl | hne
        · exact absurd hc (List.count_eq_zero.mp hL0)
        · exact hother c (List.mem_cons_of_mem _ hc) hne
      rw [List.filterMap_cons_some hft, List.filterMap_eq_nil_iff.mpr hnone]
    · rw [List.filterMap_cons_none (hother a (List.mem_cons_self a L) ha)]
      rw [List.count_cons_of_ne (fun h => ha h.symm)] at hcount
      exact ih (fun c hc hne => hother c (List.mem_cons_of_mem _ hc) hne) hcount

/-- C6: the forbidden-character set is exactly the code points 0x00–0x09,
0x0B–0x1F and 0x7F (0x0A is excluded), and an addition line containing exactly
one horizontal tab and no other forbidden character yields exactly one
forbidden-character violation, reported with the hexadecimal code `0x9`, the
occurrence count 1, and the `new TABs` annotation. -/
theorem single_tab_single_violation :
    CRITICAL_CHARS.map Char.toNat =
      [0x00, 0x01, 0x02, 0x03, 0x04, 0x05, 0x06, 0x07, 0x08, 0x09,
        0x0b, 0x0c, 0x0d, 0x0e, 0x0f, 0x10, 0x11, 0x12, 0x13, 0x14, 0x15, 0x16,
        0x17, 0x18, 0x19, 0x1a, 0x1b, 0x1c, 0x1d, 0x1e, 0x1f, 0x7f] ∧
    '\n' ∉ CRITICAL_CHARS ∧
    (∀ (n : Int) (l : List Char), skipLine l = false → l.count '\t' = 1 →
      (∀ c ∈ CRITICAL_CHARS, c ≠ '\t' → l.count c = 0) →
      (checkLine n l).filter Violation.isBadChar = [⟨.badChar '\t' 1, n, l⟩] ∧
      formatViolation ⟨.badChar '\t' 1, n, l⟩ =
        "1 copies of char 0x9 on line " ++ intStr n ++
          (" : ' " ++ String.mk l ++ " ' => new TABs")) := by
  refine ⟨by decide, by decide, ?_⟩
  intro n l _hskip h1 h0
  constructor
  · have hbad : (CRITICAL_CHARS.filterMap fun y =>
        if l.count y ≠ 0 then some (⟨.badChar y (l.count y), n, l⟩ : Violation) else none) =
        [⟨.badChar '\t' 1, n, l⟩] := by
      apply filterMap_eq_singleton (t := '\t')
      · rw [h1]; simp
      · intro c hc hne
        simp [h0 c hc hne]
      · decide
    simp only [checkLine, List.filter_append, hbad]
    split
    · simp [Violation.isBadChar]
    · simp [Violation.isBadChar]
  · have e1 : natStr 1 = "1" := rfl
    have e9 : pyHex (Char.toNat '\t') = "0x9" := rfl
    have etab : (if Char.toNat '\t' == 9 then " => new TABs" else "") = " => new TABs" := rfl
    simp only [formatViolation, e1, e9, etab]
    apply String.ext
    simp only [String.data_append]
    simp [List.append_assoc]

/-- Witness for C6: the concrete addition line `+a<TAB>b` at line number 3. -/
theorem single_tab_single_violation_witness :
    (checkLine 3 ['+', 'a', '\t', 'b']).filter Violation.isBadChar =
      [⟨.badChar '\t' 1, 3, ['+', 'a', '\t', 'b']⟩] ∧
    formatViolation ⟨.badChar '\t' 1, 3, ['+', 'a', '\t', 'b']⟩ =
      "1 copies of char 0x9 on line " ++ intStr 3 ++
        (" : ' " ++ String.mk ['+', 'a', '\t', 'b'] ++ " ' => new TABs") :=
  single_tab_single_violation.2.2 3 ['+', 'a', '\t', 'b'] (by decide) (by decide) (by decide)

theorem afterFirst_append_of_not_mem (c : Char) (l r : List Char) (h : c ∉ l) :
    afterFirst c (l ++ r) = afterFirst c r := by
  induction l with
  | nil => rfl
  | cons x t ih =>
    have hx : x ≠ c := fun he => h (he ▸ List.mem_cons_self x t)
    simp only [List.cons_append, afterFirst, beq_iff_eq, if_neg hx]
    exact ih fun hm => h (List.mem_cons_of_mem x hm)

theorem afterFirst_marker (c : Char) (pre rest : List Char) (h : c ∉ pre) :
    afterFirst c (pre ++ c :: rest) = some rest := by
  rw [afterFirst_append_of_not_mem c pre _ h]
  simp [afterFirst]

theorem upToFirst_append_of_not_mem (c : Char) (l r : List Char) (h : c ∉ l) :
    upToFirst c (l ++ r) = l ++ upToFirst c r := by
  induction l with
  | nil => rfl
  | cons x t ih =>
    have hx : x ≠ c := fun he => h (he ▸ List.mem_cons_self x t)
    simp only [List.cons_append, upToFirst, beq_iff_eq, if_neg hx, List.cons.injEq, true_and]
    exact ih fun hm => h (List.mem_cons_of_mem x hm)

theorem upToFirst_of_not_mem (c : Char) (l : List Char) (h : c ∉ l) :
    upToFirst c l = l := by
  have := upToFirst_append_of_not_mem c l [] h
  simpa [upToFirst] using this

theorem upToFirst_marker (c : Char) (pre rest : List Char) (h : c ∉ pre) :
    upToFirst c (pre ++ c :: rest) = pre := by
  rw [upToFirst_append_of_not_mem c pre _ h]
  simp [upToFirst]

theorem takeBeforeAtAt_marker (l r : List Char) (h : '@' ∉ l) :
    takeBeforeAtAt (l ++ '@' :: '@' :: r) = l := by
  induction l with
  | nil => simp [takeBeforeAtAt]
  | cons x t ih =>
    have hx : x ≠ '@' := fun he => h (he ▸ List.mem_cons_self x t)
    have ht : '@' ∉ t := fun hm => h (List.mem_cons_of_mem x hm)
    cases t with
    | nil =>
      simp [takeBeforeAtAt, hx]
    | cons y t2 =>
      have hy : y ≠ '@' := fun he => ht (he ▸ List.mem_cons_self y t2)
      simp only [List.cons_append, takeBeforeAtAt, beq_iff_eq, hx, hy, Bool.and_eq_true,
        false_and, if_false, List.cons.injEq, true_and]
      exact ih ht

theorem digit_not_pyIsSpace (c : Char) (h : c.isDigit = true) : pyIsSpace c = false := by
  cases hps : pyIsSpace c with
  | false => rfl
  | true =>
    simp only [pyIsSpace, Bool.or_eq_true, beq_iff_eq] at hps
    rcases hps with ((((rfl | rfl) | rfl) | rfl) | rfl) | rfl <;> exact absurd h (by decide)

theorem digit_ne_minus (c : Char) (h : c.isDigit = true) : c ≠ '-' := by
  intro he; subst he; exact absurd h (by decide)

theorem digit_ne_plus (c : Char) (h : c.isDigit = true) : c ≠ '+' := by
  intro he; subst he; exact absurd h (by decide)

theorem digits_dropWhile_space (l : List Char) (hd : l.all Char.isDigit = true) :
    l.dropWhile pyIsSpace = l := by
  cases l with
  | nil => rfl
  | cons c t =>
    have hc : c.isDigit = true := by
      have := List.all_eq_true.mp hd c (List.mem_cons_self c t)
      exact this
    simp [List.dropWhile, digit_not_pyIsSpace c hc]

theorem pyInt_digits (ds : List Char) (hne : ds ≠ []) (hd : ds.all Char.isDigit = true) :
    pyInt? ds = some ((digitsVal ds : Nat) : Int) := by
  have hrev : ds.reverse.all Char.isDigit = true := by
    rw [List.all_eq_true] at hd ⊢
    intro c hc
    exact hd c (List.mem_reverse.mp hc)
  unfold pyInt?
  rw [digits_dropWhile_space ds hd, digits_dropWhile_space ds.reverse hrev, List.reverse_reverse]
  cases ds with
  | nil => exact absurd rfl hne
  | cons c t =>
    have hc : c.isDigit = true := List.all_eq_true.mp hd c (List.mem_cons_self c t)
    have hm : c ≠ '-' := digit_ne_minus c hc
    have hp : c ≠ '+' := digit_ne_plus c hc
    split
    · next heq => exact absurd (List.head_eq_of_cons_eq heq.symm).symm hm
    · next heq => exact absurd (List.head_eq_of_cons_eq heq.symm).symm hp
    · next => simp [hd]

theorem pyInt_digits_trailing_space (ds : List Char) (hne : ds ≠ [])
    (hd : ds.all Char.isDigit = true) :
    pyInt? (ds ++ [' ']) = some ((digitsVal ds : Nat) : Int) := by
  have hrev : ds.reverse.all Char.isDigit = true := by
    rw [List.all_eq_true] at hd ⊢
    intro c hc
    exact hd c (List.mem_reverse.mp hc)
  unfold pyInt?
  have hfront : (ds ++ [' ']).dropWhile pyIsSpace = ds ++ [' '] := by
    cases ds with
    | nil => exact absurd rfl hne
    | cons c t =>
      have hc : c.isDigit = true := List.all_eq_true.mp hd c (List.mem_cons_self c t)
      simp [List.dropWhile, digit_not_pyIsSpace c hc]
  rw [hfront, List.reverse_append]
  have hsp : pyIsSpace ' ' = true := rfl
  simp only [List.reverse_singleton, List.singleton_append, List.dropWhile_cons, hsp, if_true]
  rw [digits_dropWhile_space ds.reverse hrev, List.reverse_reverse]
  cases ds with
  | nil => exact absurd rfl hne
  | cons c t =>
    have hc : c.isDigit = true := List.all_eq_true.mp hd c (List.mem_cons_self c t)
    have hm : c ≠ '-' := digit_ne_minus c hc
    have hp : c ≠ '+' := digit_ne_plus c hc
    split
    · next heq => exact absurd (List.head_eq_of_cons_eq heq.symm).symm hm
    · next heq => exact absurd (List.head_eq_of_cons_eq heq.symm).symm hp
    · next => simp [hd]

theorem digits_not_mem (ds : List Char) (hd : ds.all Char.isDigit = true) (c : Char)
    (hc : c.isDigit = false) : c ∉ ds := by
  intro hm
  have h2 := List.all_eq_true.mp hd c hm
  rw [h2] at hc
  exact Bool.noConfusion hc

theorem parseHunkHeader_firstPlus (old rest : List Char) (hold : '+' ∉ old) :
    afterFirst '+' ('@' :: '@' :: ' ' :: '-' :: old ++ ' ' :: '+' :: rest) = some rest := by
  have h1 : ('@' :: '@' :: ' ' :: '-' :: old ++ ' ' :: '+' :: rest) =
      ('@' :: '@' :: ' ' :: '-' :: (old ++ [' '])) ++ '+' :: rest := by
    simp
  rw [h1]
  apply afterFirst_marker
  intro hm
  simp at hm
  exact hold hm

theorem parseHunkHeader_eval (old rest : List Char) (hold : '+' ∉ old) :
    parseHunkHeader ('@' :: '@' :: ' ' :: '-' :: old ++ ' ' :: '+' :: rest) =
      (match pyInt? (if (takeBeforeAtAt (upToFirst '+' rest)).contains ','
          then upToFirst ',' (takeBeforeAtAt (upToFirst '+' rest))
          else takeBeforeAtAt (upToFirst '+' rest)) with
        | some n => n
        | none => -999) := by
  unfold parseHunkHeader
  rw [parseHunkHeader_firstPlus old rest hold]

theorem lineContext_extract (B ctx : List Char) (hp : '+' ∉ B) (ha : '@' ∉ B) :
    takeBeforeAtAt (upToFirst '+' (B ++ '@' :: '@' :: ctx)) = B := by
  rw [upToFirst_append_of_not_mem '+' B _ hp]
  have h2 : upToFirst '+' ('@' :: '@' :: ctx) = '@' :: '@' :: upToFirst '+' ctx := by
    simp [upToFirst]
  rw [h2, takeBeforeAtAt_marker _ _ ha]

/-- C4: on a diff line beginning with the two-character hunk marker, the parser
extracts the new-file starting line from the second range specifier — the
number before the comma when a count is present, the whole range otherwise —
and resets the counter to it; when the range is missing (no `+` on the line)
or non-numeric, the counter is reset to the sentinel `-999`; in either case
the scan of the remaining lines continues rather than aborting. -/
theorem hunk_header_parse_contract :
    (∀ old ds cnt ctx : List Char, '+' ∉ old → ds ≠ [] → ds.all Char.isDigit = true →
      '+' ∉ cnt → '@' ∉ cnt →
      parseHunkHeader ('@' :: '@' :: ' ' :: '-' :: old ++ ' ' :: '+' ::
        (ds ++ ',' :: cnt ++ ' ' :: '@' :: '@' :: ctx)) = ((digitsVal ds : Nat) : Int)) ∧
    (∀ old ds ctx : List Char, '+' ∉ old → ds ≠ [] → ds.all Char.isDigit = true →
      parseHunkHeader ('@' :: '@' :: ' ' :: '-' :: old ++ ' ' :: '+' ::
        (ds ++ ' ' :: '@' :: '@' :: ctx)) = ((digitsVal ds : Nat) : Int)) ∧
    (∀ (l : List Char) (n : Int) (rest : List (List Char)), isHunkHeader l = true →
      checkLines n (l :: rest) = checkLines (parseHunkHeader l) rest) ∧
    parseHunkHeader "@@ -18,4 @@".toList = -999 ∧
    parseHunkHeader "@@ -1,2 +x,3 @@".toList = -999 := by
  have hdigplus : ∀ ds : List Char, ds.all Char.isDigit = true → '+' ∉ ds := fun ds h =>
    digits_not_mem ds h '+' (by decide)
  have hdigat : ∀ ds : List Char, ds.all Char.isDigit = true → '@' ∉ ds := fun ds h =>
    digits_not_mem ds h '@' (by decide)
  have hdigcomma : ∀ ds : List Char, ds.all Char.isDigit = true → ',' ∉ ds := fun ds h =>
    digits_not_mem ds h ',' (by decide)
  refine ⟨?_, ?_, ?_, by decide, by decide⟩
  · intro old ds cnt ctx hold hds hdig hcp hca
    rw [show ds ++ ',' :: cnt ++ ' ' :: '@' :: '@' :: ctx =
      (ds ++ ',' :: cnt ++ [' ']) ++ '@' :: '@' :: ctx by simp]
    rw [parseHunkHeader_eval old _ hold]
    have hp : '+' ∉ ds ++ ',' :: cnt ++ [' '] := by
      intro h
      simp only [List.mem_append, List.mem_cons, List.mem_singleton] at h
      rcases h with (h | h | h) | h
      · exact hdigplus ds hdig h
      · exact absurd h (by decide)
      · exact hcp h
      · exact absurd h (by decide)
    have ha : '@' ∉ ds ++ ',' :: cnt ++ [' '] := by
      intro h
      simp only [List.mem_append, List.mem_cons, List.mem_singleton] at h
      rcases h with (h | h | h) | h
      · exact hdigat ds hdig h
      · exact absurd h (by decide)
      · exact hca h
      · exact absurd h (by decide)
    rw [lineContext_extract _ ctx hp ha]
    have hcomma : (ds ++ ',' :: cnt ++ [' ']).contains ',' = true :=
      List.elem_eq_true_of_mem (by simp)
    have hnum : (if (ds ++ ',' :: cnt ++ [' ']).contains ',' = true
        then upToFirst ',' (ds ++ ',' :: cnt ++ [' '])
        else ds ++ ',' :: cnt ++ [' ']) = ds := by
      rw [if_pos hcomma]
      rw [show ds ++ ',' :: cnt ++ [' '] = ds ++ ',' :: (cnt ++ [' ']) from by simp]
      exact upToFirst_marker ',' ds _ (hdigcomma ds hdig)
    rw [hnum, pyInt_digits ds hds hdig]
  · intro old ds ctx hold hds hdig
    rw [show ds ++ ' ' :: '@' :: '@' :: ctx = (ds ++ [' ']) ++ '@' :: '@' :: ctx by simp]
    rw [parseHunkHeader_eval old _ hold]
    have hp : '+' ∉ ds ++ [' '] := by
      intro h
      simp only [List.mem_append, List.mem_singleton] at h
      rcases h with h | h
      · exact hdigplus ds hdig h
      · exact absurd h (by decide)
    have ha : '@' ∉ ds ++ [' '] := by
      intro h
      simp only [List.mem_append, List.mem_singleton] at h
      rcases h with h | h
      · exact hdigat ds hdig h
      · exact absurd h (by decide)
    rw [lineContext_extract _ ctx hp ha]
    have hcomma : ¬((ds ++ [' ']).contains ',' = true) := by
      intro hel
      have hmem : ',' ∈ ds ++ [' '] := List.elem_iff.mp hel
      simp only [List.mem_append, List.mem_singleton] at hmem
      rcases hmem with h | h
      · exact hdigcomma ds hdig h
      · exact absurd h (by decide)
    rw [if_neg hcomma]
    rw [pyInt_digits_trailing_space ds hds hdig]
  · intro l n rest hh
    rw [checkLines, skipLine_of_isHunkHeader l hh]
    simp [nextCounter, assignedNumber, hh, skipLine_of_isHunkHeader l hh]

/-- Witness for C4 at the concrete headers `@@ -18,4 +19,5 @@`,
`@@ -18,0 +55 @@` and a header line inside a scan. -/
theorem hunk_header_parse_contract_witness :
    parseHunkHeader ('@' :: '@' :: ' ' :: '-' :: "18,4".toList ++ ' ' :: '+' ::
      ("19".toList ++ ',' :: "5".toList ++ ' ' :: '@' :: '@' :: [])) = ((digitsVal "19".toList : Nat) : Int) ∧
    parseHunkHeader ('@' :: '@' :: ' ' :: '-' :: "18,0".toList ++ ' ' :: '+' ::
      ("55".toList ++ ' ' :: '@' :: '@' :: [])) = ((digitsVal "55".toList : Nat) : Int) ∧
    checkLines 7 ["@@ bogus".toList, ['+', 'a']] =
      checkLines (parseHunkHeader "@@ bogus".toList) [['+', 'a']] :=
  ⟨hunk_header_parse_contract.1 "18,4".toList "19".toList "5".toList [] (by decide) (by decide)
      (by decide) (by decide) (by decide),
    hunk_header_parse_contract.2.1 "18,0".toList "55".toList [] (by decide) (by decide)
      (by decide),
    hunk_header_parse_contract.2.2.1 "@@ bogus".toList 7 [['+', 'a']] (by decide)⟩

theorem lineNumbers_append (xs ys : List (List Char)) (n : Int) :
    lineNumbers n (xs ++ ys) = lineNumbers n xs ++ lineNumbers (counterAfter n xs) ys := by
  induction xs generalizing n with
  | nil => simp [lineNumbers, counterAfter]
  | cons l t ih =>
    rw [List.cons_append, lineNumbers, lineNumbers, ih (nextCounter n l)]
    simp [counterAfter, List.append_assoc]

theorem addCountL_cons_skip (l : List Char) (t : List (List Char)) (h : skipLine l = true) :
    addCountL (l :: t) = addCountL t := by
  simp [addCountL, List.filter_cons, h]

theorem addCountL_cons_add (l : List Char) (t : List (List Char)) (h : skipLine l = false) :
    addCountL (l :: t) = addCountL t + 1 := by
  simp [addCountL, List.filter_cons, h]

theorem lineNumbers_no_header (body : List (List Char))
    (hb : ∀ l ∈ body, isHunkHeader l = false) (n : Int) :
    lineNumbers n body = (List.range (addCountL body)).map (fun i : Nat => n + (i : Int)) ∧
    counterAfter n body = n + (addCountL body : Int) := by
  induction body generalizing n with
  | nil => simp [lineNumbers, counterAfter, addCountL]
  | cons l t ih =>
    have hl : isHunkHeader l = false := hb l (List.mem_cons_self l t)
    have ht : ∀ x ∈ t, isHunkHeader x = false := fun x hx => hb x (List.mem_cons_of_mem l hx)
    cases hsk : skipLine l with
    | true =>
      have hnc : nextCounter n l = n := by simp [nextCounter, assignedNumber, hl, hsk]
      have hcount := addCountL_cons_skip l t hsk
      constructor
      · rw [lineNumbers, hsk, hnc, hcount]
        simpa using (ih ht n).1
      · rw [counterAfter, List.foldl_cons, hnc, hcount]
        exact (ih ht n).2
    | false =>
      have hass : assignedNumber n l = n := by simp [assignedNumber, hl]
      have hnc : nextCounter n l = n + 1 := by simp [nextCounter, assignedNumber, hl, hsk]
      have hcount := addCountL_cons_add l t hsk
      have ihs := ih ht (n + 1)
      constructor
      · rw [lineNumbers, hsk, hnc, hass, hcount]
        simp only [Bool.false_eq_true, if_false, List.singleton_append]
        rw [ihs.1, List.range_succ_eq_map, List.map_cons, List.map_map]
        congr 1
        · simp
        · apply List.map_congr_left
          intro a _
          simp only [Function.comp_apply, Nat.succ_eq_add_one]
          push_cast
          omega
      · have hct : counterAfter (n + 1) t = n + 1 + (addCountL t : Int) := (ih ht (n + 1)).2
        rw [counterAfter] at hct ⊢
        rw [List.foldl_cons, hnc, hcount, hct]
        push_cast
        omega

theorem lineNumbers_skipped (ls : List (List Char))
    (hskip : ∀ l ∈ ls, isHunkHeader l = false ∧ skipLine l = true) (n : Int) :
    lineNumbers n ls = [] ∧ counterAfter n ls = n := by
  have h0 : addCountL ls = 0 := by
    have : ls.filter (fun l => !skipLine l) = [] :=
      List.filter_eq_nil_iff.mpr fun l hl => by simp [(hskip l hl).2]
    simp [addCountL, this]
  have hres := lineNumbers_no_header ls (fun l hl => (hskip l hl).1) n
  rw [h0] at hres
  simpa using hres

theorem lineNumbers_hunks (hs : List Hunk) (lb : Nat)
    (hwf : ∀ h ∈ hs, hunkWF h = true) (hord : hunksOrdered lb hs = true) (n : Int) :
    List.Chain' (· < ·) (lineNumbers n (renderHunks hs)) ∧
    (∀ m ∈ lineNumbers n (renderHunks hs), (lb : Int) ≤ m) := by
  induction hs generalizing lb n with
  | nil => simp [renderHunks, lineNumbers]
  | cons h t ih =>
    have hwfh := hwf h (List.mem_cons_self h t)
    have hwft : ∀ x ∈ t, hunkWF x = true := fun x hx => hwf x (List.mem_cons_of_mem h hx)
    have hh1 : isHunkHeader h.header = true := by
      simp only [hunkWF, Bool.and_eq_true] at hwfh
      exact hwfh.1.1
    have hh2 : parseHunkHeader h.header = (h.newStart : Int) := by
      simp only [hunkWF, Bool.and_eq_true, beq_iff_eq] at hwfh
      exact hwfh.1.2
    have hh3 : ∀ l ∈ h.body, isHunkHeader l = false := by
      simp only [hunkWF, Bool.and_eq_true, List.all_eq_true] at hwfh
      intro l hl
      simpa using hwfh.2 l hl
    have hlb : lb ≤ h.newStart ∧ hunksOrdered (h.newStart + h.addCount) t = true := by
      simpa [hunksOrdered] using hord
    have hrender : renderHunks (h :: t) = h.header :: (h.body ++ renderHunks t) := by
      simp [renderHunks]
    have hstep : lineNumbers n (renderHunks (h :: t)) =
        lineNumbers ((h.newStart : Nat) : Int) (h.body ++ renderHunks t) := by
      rw [hrender, lineNumbers, skipLine_of_isHunkHeader _ hh1]
      simp [nextCounter, assignedNumber, hh1, hh2, skipLine_of_isHunkHeader _ hh1]
    have hbody := lineNumbers_no_header h.body hh3 ((h.newStart : Nat) : Int)
    have hsplit : lineNumbers ((h.newStart : Nat) : Int) (h.body ++ renderHunks t) =
        (List.range h.addCount).map (fun i : Nat => ((h.newStart : Nat) : Int) + (i : Int)) ++
          lineNumbers (((h.newStart : Nat) : Int) + (h.addCount : Int)) (renderHunks t) := by
      rw [lineNumbers_append, hbody.1, hbody.2]
      rfl
    have iht := ih (h.newStart + h.addCount) hwft hlb.2
      (((h.newStart : Nat) : Int) + (h.addCount : Int))
    have hfirst_chain : List.Chain' (· < ·)
        ((List.range h.addCount).map (fun i : Nat => ((h.newStart : Nat) : Int) + (i : Int))) := by
      refine List.Pairwise.chain' ?_
      refine List.Pairwise.map _ ?_ (List.pairwise_lt_range h.addCount)
      intro a b hab
      omega
    have hfirst_mem : ∀ x ∈ (List.range h.addCount).map
        (fun i : Nat => ((h.newStart : Nat) : Int) + (i : Int)),
        (h.newStart : Int) ≤ x ∧ x < (h.newStart : Int) + (h.addCount : Int) := by
      intro x hx
      obtain ⟨i, hi, rfl⟩ := List.mem_map.mp hx
      have := List.mem_range.mp hi
      constructor
      · omega
      · omega
    constructor
    · rw [hstep, hsplit]
      apply List.Chain'.append hfirst_chain iht.1
      intro x hx y hy
      have hx' := hfirst_mem x (List.mem_of_mem_getLast? hx)
      have hy' := iht.2 y (List.mem_of_mem_head? hy)
      push_cast at hy'
      omega
    · rw [hstep, hsplit]
      intro m hm
      rcases List.mem_append.mp hm with hm | hm
      · have := (hfirst_mem m hm).1
        have hcast : (lb : Int) ≤ (h.newStart : Int) := by exact_mod_cast hlb.1
        omega
      · have := iht.2 m hm
        push_cast at this
        have hcast : (lb : Int) ≤ (h.newStart : Int) := by exact_mod_cast hlb.1
        omega

/-- C3: for every well-formed unified diff (headers parse to their declared
new-file starts, hunks ordered, preamble lines skipped), the line numbers
assigned to the addition lines form a strictly increasing sequence; the
counter is left unchanged by skipped non-header lines, reset by hunk headers
to the parsed new-file start, and incremented exactly on addition lines
(which receive the current counter); every violation a line produces carries
that line's assigned number. -/
theorem diff_line_numbers_strictly_increasing (text : String)
    (preamble : List (List Char)) (hs : List Hunk)
    (hwf : diffWF preamble hs = true)
    (hrep : pySplitlines text = renderDiff preamble hs) :
    List.Chain' (· < ·) (lineNumbers (-999) (pySplitlines text)) ∧
    (∀ (n : Int) (l : List Char), skipLine l = true → isHunkHeader l = false →
      nextCounter n l = n) ∧
    (∀ (n : Int) (l : List Char), isHunkHeader l = true →
      nextCounter n l = parseHunkHeader l) ∧
    (∀ (n : Int) (l : List Char), skipLine l = false →
      assignedNumber n l = n ∧ nextCounter n l = n + 1) ∧
    (∀ (n : Int) (l : List Char),
      ((checkLine n l).all fun v => v.lineNumber == n) = true) := by
  refine ⟨?_, ?_, ?_, ?_, ?_⟩
  · rw [hrep]
    have hwf' := hwf
    simp only [diffWF, Bool.and_eq_true, List.all_eq_true] at hwf'
    have h1 : ∀ l ∈ preamble, isHunkHeader l = false ∧ skipLine l = true := by
      intro l hl
      have h := hwf'.1.1 l hl
      simp only [Bool.and_eq_true, Bool.not_eq_true'] at h
      exact h
    have h2 : ∀ x ∈ hs, hunkWF x = true := hwf'.1.2
    have h3 : hunksOrdered 0 hs = true := hwf'.2
    rw [renderDiff, lineNumbers_append,
      (lineNumbers_skipped preamble h1 (-999)).1, (lineNumbers_skipped preamble h1 (-999)).2]
    simp only [List.nil_append]
    exact (lineNumbers_hunks hs 0 h2 h3 (-999)).1
  · intro n l hsk hh
    simp [nextCounter, assignedNumber, hsk, hh]
  · intro n l hh
    simp [nextCounter, assignedNumber, hh, skipLine_of_isHunkHeader l hh]
  · intro n l hsk
    have hh := isHunkHeader_false_of_skipLine_false l hsk
    simp [assignedNumber, nextCounter, hsk, hh]
  · intro n l
    rw [List.all_eq_true]
    intro v hv
    simp [(checkLine_fields n l v hv).1]

/-- Witness for C3 at a concrete two-hunk diff with preamble, deletions and
additions. -/
theorem diff_line_numbers_strictly_increasing_witness :
    List.Chain' (· < ·) (lineNumbers (-999) (pySplitlines
      "--- a/f.cc\n+++ b/f.cc\n@@ -1,2 +10,2 @@\n+ab\n-c\n+de\n@@ -9 +20 @@\n+z")) :=
  (diff_line_numbers_strictly_increasing
    "--- a/f.cc\n+++ b/f.cc\n@@ -1,2 +10,2 @@\n+ab\n-c\n+de\n@@ -9 +20 @@\n+z"
    ["--- a/f.cc".toList, "+++ b/f.cc".toList]
    [⟨"@@ -1,2 +10,2 @@".toList, 10, ["+ab".toList, "-c".toList, "+de".toList]⟩,
      ⟨"@@ -9 +20 @@".toList, 20, ["+z".toList]⟩]
    (by decide) (by decide)).1

end Cog
